import Mathlib

/-!
# Verification of the WayuuLingo semantic-search pipeline

Shallow embedding of `src/search/search.service.ts` (class `SearchService`):
the hash-based fallback embedding, dimensionality fitting, result
normalization, context assembly, answer generation and the
`performSemanticSearch` control flow, together with theorems settling the
specification claims.

Modelling conventions:
* JavaScript numbers that only ever hold exact small integers are `ℤ`/`ℕ`;
  scores and embedding components are `ℚ` (every IEEE double is rational);
  the single irrational operation (`Math.sqrt` in the L2 normalization) is
  modelled with `Real.sqrt` at the statement level.
* Fallible external calls (`embedContent`, `qdrantClient.search`,
  `generateContent`) are oracle functions returning `Except String _`,
  collected in an `Env` record; a thrown `Error` is `Except.error message`.
* `charCodeAt` is modelled by the code point of the character and
  `toLowerCase` by per-character ASCII lowering; the claims under
  verification do not depend on UTF-16 surrogate or locale details.
-/

set_option maxRecDepth 8192

namespace WayuuLingo

/-- Two's-complement truncation to a signed 32-bit integer, the effect of
the JavaScript `x | 0` / `x & x` coercion (`hash = hash & hash` in
`generateEmbedding`). -/
def toInt32 (n : ℤ) : ℤ :=
  (n + 2147483648) % 4294967296 - 2147483648

/-- JavaScript remainder `a % b` (sign of the dividend), used by
`hash % 100` in the fallback embedding. -/
def jsRem (a b : ℤ) : ℤ :=
  if 0 ≤ a then a % b else -((-a) % b)

/-- One character step of the fallback hash:
`hash = ((hash << 5) - hash) + charCode; hash = hash & hash`.
The `<< 5` itself wraps to 32 bits in JavaScript, hence the inner
`toInt32` around the multiplication by 32. -/
def hashStep (h : ℤ) (c : ℕ) : ℤ :=
  toInt32 (toInt32 (h * 32) - h + c)

/-- The 32-bit rolling hash of one word (the inner `for` loop over
`word.charCodeAt(i)` starting from `hash = 0`). -/
def wordHash (w : String) : ℤ :=
  w.data.foldl (fun h c => hashStep h c.toNat) 0

/-- Auxiliary splitter over the character list: tokens separated by
maximal whitespace runs, keeping the empty token that JavaScript
`split(/\s+/)` produces before a leading run and after a trailing run.
A whitespace character opens a new token unless the next character
continues the same run; a non-whitespace character is prepended to the
first token of the remainder. -/
def jsSplitList : List Char → List String
  | [] => [""]
  | c :: cs =>
    if c.isWhitespace then
      match cs with
      | [] => "" :: jsSplitList cs
      | d :: _ => if d.isWhitespace then jsSplitList cs else "" :: jsSplitList cs
    else
      match jsSplitList cs with
      | [] => [String.mk [c]]
      | t :: ts => String.mk (c :: t.data) :: ts

/-- JavaScript `text.split(/\s+/)`: split on maximal whitespace runs. -/
def jsSplitWS (s : String) : List String :=
  jsSplitList s.data

/-- JavaScript `text.toLowerCase()` on the basic latin range, as a
per-character map over the character list. -/
def jsToLower (s : String) : String :=
  String.mk (s.data.map Char.toLower)

/-- `embedding[j] += val` on a JavaScript array, as a functional list
update (reading a missing index as 0, which never happens in range). -/
def addAt (emb : List ℚ) (j : ℕ) (val : ℚ) : List ℚ :=
  emb.set j (emb.getD j 0 + val)

/-- The inner distribution loop of the fallback embedding:
`for (let i = 0; i < 10 && baseIndex + i < embedding.length; i++)
   embedding[baseIndex + i] += (hash % 100) / 100;`
Since `baseIndex + i` is increasing, the early `break` of the loop guard
is equivalent to skipping the out-of-range iterations. -/
def distribute (emb : List ℚ) (base : ℕ) (val : ℚ) : List ℚ :=
  (List.range 10).foldl
    (fun e i => if base + i < e.length then addAt e (base + i) val else e) emb

/-- Processing of one word of the query inside `words.forEach`:
hash the word, derive `baseIndex`, distribute `(hash % 100) / 100`. -/
def processWord (emb : List ℚ) (idx : ℕ) (word : String) : List ℚ :=
  let hash := wordHash word
  let base := (hash.natAbs + idx) % emb.length
  distribute emb base ((jsRem hash 100 : ℚ) / 100)

/-- The pre-normalization fallback embedding: a 384-slot array filled by
the word loop of `generateEmbedding` (lines 166–180 of the service). -/
def fallbackRaw (text : String) : List ℚ :=
  (jsSplitWS (jsToLower text)).enum.foldl
    (fun e p => processWord e p.1 p.2) (List.replicate 384 0)

/-- Sum of squares of the vector, i.e. the square of the Euclidean
magnitude computed by `embedding.reduce((sum, val) => sum + val * val, 0)`. -/
def magSq (l : List ℚ) : ℚ :=
  (l.map (fun v => v * v)).sum

/-- The dimension fit applied to every embedding before search
(`embedding.length > 384 ? embedding.slice(0, 384) : embedding`, present
both at line 64 of `performSemanticSearch` and line 156 of
`generateEmbedding`). -/
def fitTo384 (embedding : List ℝ) : List ℝ :=
  if embedding.length > 384 then embedding.take 384 else embedding

/-- A JSON payload value as stored in Qdrant for this collection: the
fields the service reads hold strings or integers. -/
inductive JSVal where
  | str (s : String)
  | int (n : ℤ)
deriving DecidableEq

/-- One raw Qdrant hit: an identifier that the backend may deliver as an
integer or a string, a similarity score, and an optional payload object
(an association list of fields, `none` when `hit.payload` is
null/undefined). -/
structure RawHit where
  id : ℤ ⊕ String
  score : ℚ
  payload : Option (List (String × JSVal))

/-- `hit.payload?.k`: optional-chaining field read, `none` when the
payload object or the key is absent. -/
def pget (hit : RawHit) (k : String) : Option JSVal :=
  match hit.payload with
  | none => none
  | some l => l.lookup k

/-- JavaScript truthiness of a possibly-absent payload value: `undefined`,
the empty string and the number 0 are falsy. -/
def truthyVal : Option JSVal → Bool
  | none => false
  | some (.str s) => decide (s ≠ "")
  | some (.int n) => decide (n ≠ 0)

/-- `String(v)` on a payload value (only evaluated behind a truthiness
guard in the service, so the `none` branch is the unreachable
`"undefined"` rendering). -/
def strOfVal : Option JSVal → String
  | some (.str s) => s
  | some (.int n) => toString n
  | none => "undefined"

/-- `Number(v)` on a payload value (only evaluated behind a truthiness
guard). A non-numeric string gives NaN in JavaScript; that case is outside
the integer payloads this collection stores and is read as 0 here. -/
def numOfVal : Option JSVal → ℤ
  | some (.int n) => n
  | some (.str s) => (s.toInt?).getD 0
  | none => 0

/-- `hit.id.toString()`: the identifier coerced to a string whatever its
backend type. -/
def jsIdToString : ℤ ⊕ String → String
  | .inl n => toString n
  | .inr s => s

/-- Normalized payload of a search result (`SearchResult.payload` in the
service). -/
structure Payload where
  text : String
  source : String
  chunk_index : ℤ
  total_chunks : ℤ
  upload_timestamp : Option JSVal
deriving DecidableEq

/-- Normalized search result (`SearchResult` interface). -/
structure SearchResult where
  id : String
  score : ℚ
  payload : Payload
deriving DecidableEq

/-- Response bundle (`AISearchResponse` interface); absent optional fields
are `none`. -/
structure AISearchResponse where
  query : String
  results : List SearchResult
  aiResponse : Option String
  error : Option String
deriving DecidableEq

/-- The result normalizer: the `searchResult.map((hit) => ...)` body of
`performSemanticSearch` (lines 83–107), default-filling every field by
truthiness checks. -/
def normalizeHit (hit : RawHit) : SearchResult :=
  { id := jsIdToString hit.id
    score := hit.score
    payload :=
      { text := if truthyVal (pget hit "text") then strOfVal (pget hit "text") else ""
        source :=
          if truthyVal (pget hit "file_name") then strOfVal (pget hit "file_name")
          else if truthyVal (pget hit "source") then strOfVal (pget hit "source")
          else ""
        chunk_index :=
          if truthyVal (pget hit "chunk_index") then numOfVal (pget hit "chunk_index") else 0
        total_chunks :=
          if truthyVal (pget hit "total_chunks") then numOfVal (pget hit "total_chunks") else 0
        upload_timestamp := pget hit "upload_timestamp" } }

/-- Three-digit zero padding for the fractional part of `toFixed(3)`. -/
def pad3 (m : ℕ) : String :=
  if m < 10 then "00" ++ toString m
  else if m < 100 then "0" ++ toString m
  else toString m

/-- JavaScript `q.toFixed(3)`: round the magnitude to the nearest
thousandth, ties away from zero, and print with exactly three decimals. -/
def toFixed3 (q : ℚ) : String :=
  let neg := decide (q < 0)
  let m : ℚ := |q|
  let n : ℤ := ⌊m * 1000 + 1 / 2⌋
  (if neg then "-" else "") ++ toString (n / 1000) ++ "." ++ pad3 (n % 1000).toNat

/-- JavaScript `s.substring(a, b)` for `a ≤ b` in range: the characters
from position `a` up to (excluding) position `b`. -/
def jsSubstring (s : String) (a b : ℕ) : String :=
  String.mk ((s.data.take b).drop a)

/-- One rendered context block of `generateAIResponse` (lines 198–204):
1-based rank, score to three decimals, source, 1-based chunk position out
of the chunk total, and the passage cut to its first 800 characters. -/
def blockOf (i : ℕ) (r : SearchResult) : String :=
  "\n--- Resultado " ++ toString (i + 1) ++ " (Relevancia: " ++ toFixed3 r.score ++
    ") ---\n" ++
  "Documento: " ++ r.payload.source ++ "\n" ++
  "Fragmento " ++ toString (r.payload.chunk_index + 1) ++ "/" ++
    toString r.payload.total_chunks ++ "\n" ++
  "Contenido: " ++ jsSubstring r.payload.text 0 800 ++ "\n"

/-- The assembled context: first five results, each rendered with
`blockOf`, concatenated with the empty separator
(`searchResults.slice(0, 5).map(...).join('')`). -/
def contextOf (results : List SearchResult) : String :=
  String.join ((results.take 5).enum.map (fun p => blockOf p.1 p.2))

/-- The grounding prompt of `generateAIResponse` (lines 207–223). -/
def promptOf (query context : String) : String :=
  "Eres un asistente especializado en la lengua Wayuu. Responde a la consulta del usuario\n" ++
  "basándote ÚNICAMENTE en la información proporcionada en los resultados de búsqueda.\n\n" ++
  "Si la información no es suficiente para responder completamente, indica qué aspectos\n" ++
  "no puedes cubrir con la información disponible.\n\n" ++
  "Consulta del usuario: " ++ query ++ "\n\n" ++
  "Resultados de búsqueda relevantes:\n" ++ context ++ "\n\n" ++
  "Instrucciones:\n" ++
  "- Responde de manera clara y estructurada\n" ++
  "- Incluye ejemplos cuando sea relevante\n" ++
  "- Mantén un tono educativo y respetuoso\n" ++
  "- Si hay información contradictoria, aclárala\n" ++
  "- Cita las fuentes cuando sea apropiado"

/-- The fixed apology returned by `generateAIResponse` when the model call
throws. -/
def apologySentence : String :=
  "Lo siento, no pude generar una respuesta inteligente en este momento. Pero puedes revisar los resultados de búsqueda a continuación."

/-- The fixed sentence returned when the model call succeeds but yields no
text (`response.response.text() || ...`). -/
def noTextSentence : String :=
  "No se pudo generar una respuesta."

/-- The search request forwarded to `qdrantClient.search` (lines 70–78). -/
structure SearchRequest where
  collection : String
  vector : List ℝ
  topK : ℕ
  with_payload : Bool
  with_vector : Bool

/-- Oracle outcomes of the three external calls of one request:
`embeddingModel.embedContent`, `qdrantClient.search` and
`model.generateContent`. A thrown `Error` is `Except.error message`. -/
structure Env where
  embedContent : String → Except String (List ℝ)
  search : SearchRequest → Except String (List RawHit)
  generateContent : String → Except String String

/-- The normalized fallback embedding (lines 166–186): the raw hash vector
divided componentwise by its Euclidean magnitude. Lean real division
totalizes the zero-magnitude boundary (where JavaScript produces NaN);
that boundary is characterized separately on `fallbackRaw` and `magSq`. -/
noncomputable def fallbackEmbedding (text : String) : List ℝ :=
  (fallbackRaw text).map
    (fun v : ℚ => ((v : ℚ) : ℝ) / Real.sqrt ((magSq (fallbackRaw text) : ℚ) : ℝ))

/-- `generateEmbedding` (lines 144–188): the Gemini embedding fitted to
384 dimensions when the call succeeds, the hash-based fallback when it
throws. Total: the fallback itself cannot throw. -/
noncomputable def generateEmbedding (env : Env) (text : String) : List ℝ :=
  match env.embedContent text with
  | .ok values => fitTo384 values
  | .error _ => fallbackEmbedding text

/-- `generateAIResponse` (lines 190–235): assemble the context and the
prompt, call the generative model; empty model text becomes
`noTextSentence`, a thrown model error becomes `apologySentence`. -/
def generateAIResponse (env : Env) (query : String)
    (searchResults : List SearchResult) : String :=
  let context := contextOf searchResults
  let prompt := promptOf query context
  match env.generateContent prompt with
  | .ok text => if text = "" then noTextSentence else text
  | .error _ => apologySentence

/-- The request actually sent to Qdrant by `performSemanticSearch`:
collection `wayuucollection`, the dimension-fitted embedding, the limit
clamped by `Math.min(limit, 10)`, payload requested, vectors not. -/
noncomputable def searchRequestOf (env : Env) (query : String) (limit : ℕ) :
    SearchRequest :=
  { collection := "wayuucollection"
    vector := fitTo384 (generateEmbedding env query)
    topK := min limit 10
    with_payload := true
    with_vector := false }

/-- `performSemanticSearch` (lines 51–142). `generateEmbedding` and
`generateAIResponse` both catch their own errors and are total, so the
outer `catch` fires exactly when the Qdrant search call throws, returning
`{query, results: [], error}`; on success the normalized results are
bundled with the generated answer. -/
noncomputable def performSemanticSearch (env : Env) (query : String)
    (limit : ℕ) : AISearchResponse :=
  match env.search (searchRequestOf env query limit) with
  | .error msg =>
    { query := query, results := [], aiResponse := none, error := some msg }
  | .ok hits =>
    let results := hits.map normalizeHit
    { query := query
      results := results
      aiResponse := some (generateAIResponse env query (results.take 5))
      error := none }

/-! Concrete fixtures used to exercise the model on closed inputs. -/

/-- Environment whose Qdrant search call throws an auth error. -/
def envSearchFail : Env :=
  { embedContent := fun _ => .ok []
    search := fun _ => .error "Unauthorized: invalid api key"
    generateContent := fun _ => .ok "ok" }

/-- Environment whose generative-model call throws. -/
def envGenFail : Env :=
  { embedContent := fun _ => .ok []
    search := fun _ => .ok []
    generateContent := fun _ => .error "model unreachable" }

/-- Environment whose generative-model call succeeds with empty text. -/
def envGenEmpty : Env :=
  { embedContent := fun _ => .ok []
    search := fun _ => .ok []
    generateContent := fun _ => .ok "" }

/-- Environment whose embedding-model call throws with the given message. -/
def envEmbedFail (e : String) : Env :=
  { embedContent := fun _ => .error e
    search := fun _ => .ok []
    generateContent := fun _ => .ok "ok" }

/-- A raw hit with an integer id, a `file_name` payload key and no
`source` key. -/
def hitDoc1 : RawHit :=
  { id := .inl 42
    score := 1 / 2
    payload := some [("file_name", .str "doc1.txt"), ("text", .str "hola")] }

/-- A raw hit with no payload object at all. -/
def hitBare : RawHit :=
  { id := .inr "x9", score := 0, payload := none }

/-- A raw hit whose payload has an empty `file_name`, a nonempty `source`,
an empty `text` and a zero `chunk_index`. -/
def hitEmptyFields : RawHit :=
  { id := .inr "abc"
    score := 0
    payload := some [("file_name", .str ""), ("source", .str "src.txt"),
                     ("text", .str ""), ("chunk_index", .int 0)] }

/-! ## Claim theorems -/

/-- C1: if the Qdrant search call throws, `performSemanticSearch` aborts
and returns the input query, an empty result list and the failure message,
with `aiResponse` absent. -/
theorem search_failure_aborts (env : Env) (query : String) (limit : ℕ)
    (msg : String)
    (h : env.search (searchRequestOf env query limit) = .error msg) :
    performSemanticSearch env query limit =
      { query := query, results := [], aiResponse := none, error := some msg } := by
  unfold performSemanticSearch
  rw [h]

/-- Witness for C1: a concrete environment whose search call throws an
auth error. -/
theorem search_failure_aborts_witness :
    performSemanticSearch envSearchFail "hola" 10 =
      { query := "hola", results := [], aiResponse := none,
        error := some "Unauthorized: invalid api key" } :=
  search_failure_aborts envSearchFail "hola" 10 "Unauthorized: invalid api key" rfl

/-- C2: `generateAIResponse` never fails outward: a thrown model call
yields the fixed apology sentence (and the pipeline still returns the
computed results with `error` absent), while a successful call with empty
text yields the distinct fixed sentence `No se pudo generar una
respuesta.`. -/
theorem generation_failure_recovered :
    (∀ (env : Env) (query : String) (results : List SearchResult) (e : String),
       env.generateContent (promptOf query (contextOf results)) = .error e →
       generateAIResponse env query results = apologySentence)
  ∧ (∀ (env : Env) (query : String) (results : List SearchResult),
       env.generateContent (promptOf query (contextOf results)) = .ok "" →
       generateAIResponse env query results = noTextSentence)
  ∧ apologySentence ≠ noTextSentence
  ∧ (∀ (env : Env) (query : String) (limit : ℕ) (hits : List RawHit) (e : String),
       env.search (searchRequestOf env query limit) = .ok hits →
       env.generateContent
         (promptOf query (contextOf ((hits.map normalizeHit).take 5))) = .error e →
       performSemanticSearch env query limit =
         { query := query, results := hits.map normalizeHit,
           aiResponse := some apologySentence, error := none }) := by
  refine ⟨?_, ?_, ?_, ?_⟩
  · intro env query results e h
    unfold generateAIResponse
    dsimp only
    rw [h]
  · intro env query results h
    unfold generateAIResponse
    dsimp only
    rw [h]
    simp
  · decide
  · intro env query limit hits e hsearch hgen
    unfold performSemanticSearch
    rw [hsearch]
    unfold generateAIResponse
    dsimp only
    rw [hgen]

/-- Witness for C2: concrete environments with a thrown model call and an
empty-text model call. -/
theorem generation_failure_recovered_witness :
    generateAIResponse envGenFail "q" [] = apologySentence
  ∧ generateAIResponse envGenEmpty "q" [] = noTextSentence
  ∧ performSemanticSearch envGenFail "q" 5 =
      { query := "q", results := [], aiResponse := some apologySentence,
        error := none } :=
  ⟨generation_failure_recovered.1 envGenFail "q" [] "model unreachable" rfl,
   generation_failure_recovered.2.1 envGenEmpty "q" [] rfl,
   generation_failure_recovered.2.2.2 envGenFail "q" 5 [] "model unreachable" rfl rfl⟩

/-- C4: the fallback embedding is deterministic and pure: whenever the
primary embedding call fails, the produced vector is `fallbackEmbedding`
of the text alone, identical across any two environments (no randomness,
no external calls). -/
theorem fallback_deterministic (env env' : Env) (text : String) (e e' : String)
    (h : env.embedContent text = .error e)
    (h' : env'.embedContent text = .error e') :
    generateEmbedding env text = generateEmbedding env' text
    ∧ generateEmbedding env text = fallbackEmbedding text := by
  unfold generateEmbedding
  rw [h, h']
  exact ⟨rfl, rfl⟩

/-- Witness for C4: two concrete failing environments produce the same
fallback vector. -/
theorem fallback_deterministic_witness :
    generateEmbedding (envEmbedFail "quota") "hola" =
      generateEmbedding (envEmbedFail "network") "hola"
    ∧ generateEmbedding (envEmbedFail "quota") "hola" = fallbackEmbedding "hola" :=
  fallback_deterministic (envEmbedFail "quota") (envEmbedFail "network")
    "hola" "quota" "network" rfl rfl

/-- C6: before search, a vector longer than 384 components is replaced by
its first 384 components, and a vector of length at most 384 passes
through unchanged (never padded). -/
theorem embedding_dimension_fit (l : List ℝ) :
    (384 < l.length → fitTo384 l = l.take 384 ∧ (fitTo384 l).length = 384)
    ∧ (l.length ≤ 384 → fitTo384 l = l) := by
  constructor
  · intro h
    have heq : fitTo384 l = l.take 384 := by
      unfold fitTo384
      simp [h]
    refine ⟨heq, ?_⟩
    rw [heq, List.length_take]
    omega
  · intro h
    unfold fitTo384
    simp
    omega

/-- Witness for C6: a 385-component vector is front-truncated to 384
components, and a short vector passes through unchanged. -/
theorem embedding_dimension_fit_witness :
    (fitTo384 (List.replicate 385 (0 : ℝ)) = (List.replicate 385 (0 : ℝ)).take 384
      ∧ (fitTo384 (List.replicate 385 (0 : ℝ))).length = 384)
    ∧ fitTo384 ([] : List ℝ) = [] :=
  ⟨(embedding_dimension_fit (List.replicate 385 (0 : ℝ))).1 (by simp),
   (embedding_dimension_fit ([] : List ℝ)).2 (by simp)⟩

/-- C7: the `topK` forwarded to the search backend is `min limit 10`, in
particular at most 10 for every caller-supplied limit. -/
theorem topk_clamped (env : Env) (query : String) (limit : ℕ) :
    (searchRequestOf env query limit).topK = min limit 10
    ∧ (searchRequestOf env query limit).topK ≤ 10 :=
  ⟨rfl, Nat.min_le_right _ _⟩

/-- C8: the normalizer is total and default-filling: missing `text`
defaults to the empty string, missing counters to 0, the identifier is
stringified whether integer or string, and the source resolves in the
order `file_name`, then `source`, then the empty string. -/
theorem normalizer_total_defaults (hit : RawHit) :
    (pget hit "text" = none → (normalizeHit hit).payload.text = "")
  ∧ (pget hit "chunk_index" = none → (normalizeHit hit).payload.chunk_index = 0)
  ∧ (pget hit "total_chunks" = none → (normalizeHit hit).payload.total_chunks = 0)
  ∧ (∀ n : ℤ, hit.id = Sum.inl n → (normalizeHit hit).id = toString n)
  ∧ (∀ s : String, hit.id = Sum.inr s → (normalizeHit hit).id = s)
  ∧ (∀ s : String, s ≠ "" → pget hit "file_name" = some (JSVal.str s) →
       (normalizeHit hit).payload.source = s)
  ∧ (∀ s : String, s ≠ "" → pget hit "file_name" = none →
       pget hit "source" = some (JSVal.str s) →
       (normalizeHit hit).payload.source = s)
  ∧ (pget hit "file_name" = none → pget hit "source" = none →
       (normalizeHit hit).payload.source = "") := by
  refine ⟨?_, ?_, ?_, ?_, ?_, ?_, ?_, ?_⟩
  · intro h
    simp [normalizeHit, h, truthyVal]
  · intro h
    simp [normalizeHit, h, truthyVal]
  · intro h
    simp [normalizeHit, h, truthyVal]
  · intro n h
    simp [normalizeHit, h, jsIdToString]
  · intro s h
    simp [normalizeHit, h, jsIdToString]
  · intro s hs h
    simp [normalizeHit, h, truthyVal, strOfVal, hs]
  · intro s hs hfile h
    simp [normalizeHit, h, hfile, truthyVal, strOfVal, hs]
  · intro hfile hsource
    simp [normalizeHit, hfile, hsource, truthyVal]

/-- Witness for C8: a hit with `file_name: "doc1.txt"` and no `source`
key resolves to source `doc1.txt`; a hit without payload gets the
defaults; an integer id 42 is stringified. -/
theorem normalizer_total_defaults_witness :
    (normalizeHit hitDoc1).payload.source = "doc1.txt"
  ∧ (normalizeHit hitBare).payload.text = ""
  ∧ (normalizeHit hitBare).payload.chunk_index = 0
  ∧ (normalizeHit hitDoc1).id = toString (42 : ℤ) :=
  ⟨(normalizer_total_defaults hitDoc1).2.2.2.2.2.1 "doc1.txt" (by decide) rfl,
   (normalizer_total_defaults hitBare).1 rfl,
   (normalizer_total_defaults hitBare).2.1 rfl,
   (normalizer_total_defaults hitDoc1).2.2.2.1 42 rfl⟩

/-- C9: the context takes at most the first five results in order, renders
each as the fixed-format block (rank, three-decimal score, source, 1-based
chunk position out of total, passage hard-cut at 800 characters), and the
passage portion of a block never exceeds 800 characters. -/
theorem context_assembly (results : List SearchResult) :
    contextOf results = contextOf (results.take 5)
  ∧ contextOf results =
      String.join ((results.take 5).enum.map (fun p => blockOf p.1 p.2))
  ∧ (∀ (i : ℕ) (r : SearchResult),
      blockOf i r =
        "\n--- Resultado " ++ toString (i + 1) ++ " (Relevancia: " ++
          toFixed3 r.score ++ ") ---\n" ++ "Documento: " ++ r.payload.source ++
          "\n" ++ "Fragmento " ++ toString (r.payload.chunk_index + 1) ++ "/" ++
          toString r.payload.total_chunks ++ "\n" ++ "Contenido: " ++
          jsSubstring r.payload.text 0 800 ++ "\n")
  ∧ (∀ r : SearchResult, (jsSubstring r.payload.text 0 800).length ≤ 800) := by
  refine ⟨?_, rfl, fun i r => rfl, ?_⟩
  · unfold contextOf
    rw [List.take_take]
    simp
  · intro r
    unfold jsSubstring
    show ((r.payload.text.data.take 800).drop 0).length ≤ 800
    simp [List.length_take]

/-- C10: normalization resolves payload fields by truthiness, not key
presence: an empty `file_name` falls through to `source`, and empty-string
or zero-valued fields normalize exactly as absent ones do. -/
theorem normalizer_truthiness (hit : RawHit) :
    (∀ s : String, s ≠ "" → pget hit "file_name" = some (JSVal.str "") →
       pget hit "source" = some (JSVal.str s) →
       (normalizeHit hit).payload.source = s)
  ∧ (pget hit "file_name" = some (JSVal.str "") → pget hit "source" = none →
       (normalizeHit hit).payload.source = "")
  ∧ (pget hit "file_name" = some (JSVal.str "") →
       pget hit "source" = some (JSVal.str "") →
       (normalizeHit hit).payload.source = "")
  ∧ (pget hit "text" = some (JSVal.str "") →
       (normalizeHit hit).payload.text = "")
  ∧ (pget hit "chunk_index" = some (JSVal.int 0) →
       (normalizeHit hit).payload.chunk_index = 0) := by
  refine ⟨?_, ?_, ?_, ?_, ?_⟩
  · intro s hs hfile hsource
    simp [normalizeHit, hfile, hsource, truthyVal, strOfVal, hs]
  · intro hfile hsource
    simp [normalizeHit, hfile, hsource, truthyVal]
  · intro hfile hsource
    simp [normalizeHit, hfile, hsource, truthyVal]
  · intro h
    simp [normalizeHit, h, truthyVal]
  · intro h
    simp [normalizeHit, h, truthyVal]

/-- Witness for C10: a payload with empty `file_name`, nonempty `source`,
empty `text` and zero `chunk_index` resolves source to the `source` key
and the other fields to their defaults. -/
theorem normalizer_truthiness_witness :
    (normalizeHit hitEmptyFields).payload.source = "src.txt"
  ∧ (normalizeHit hitEmptyFields).payload.text = ""
  ∧ (normalizeHit hitEmptyFields).payload.chunk_index = 0 :=
  ⟨(normalizer_truthiness hitEmptyFields).1 "src.txt" (by decide) rfl rfl,
   (normalizer_truthiness hitEmptyFields).2.2.2.1 rfl,
   (normalizer_truthiness hitEmptyFields).2.2.2.2 rfl⟩

/-! Helper lemmas about the fallback vector. -/

/-- Unfolding of the sum of squares on a cons cell. -/
theorem magSq_cons (a : ℚ) (l : List ℚ) : magSq (a :: l) = a * a + magSq l := by
  simp [magSq]

/-- A sum of squares is nonnegative. -/
theorem magSq_nonneg (l : List ℚ) : 0 ≤ magSq l := by
  induction l with
  | nil => simp [magSq]
  | cons a l ih =>
    rw [magSq_cons]
    have := mul_self_nonneg a
    linarith

/-- A vector with zero sum of squares is the zero vector. -/
theorem eq_zero_of_magSq_eq_zero (l : List ℚ) (h : magSq l = 0) :
    ∀ v ∈ l, v = 0 := by
  induction l with
  | nil => simp
  | cons a l ih =>
    rw [magSq_cons] at h
    have h1 : 0 ≤ a * a := mul_self_nonneg a
    have h2 : 0 ≤ magSq l := magSq_nonneg l
    have ha : a = 0 := mul_self_eq_zero.mp (by linarith)
    intro v hv
    rcases List.mem_cons.mp hv with h' | h'
    · rw [h']; exact ha
    · exact ih (by linarith) v h'

/-- The sum of the squared, divided components equals the rational sum of
squares divided by the square of the divisor. -/
theorem sum_sq_div (l : List ℚ) (c : ℝ) :
    (l.map (fun v => (((v : ℚ) : ℝ) / c) ^ 2)).sum = ((magSq l : ℚ) : ℝ) / c ^ 2 := by
  induction l with
  | nil => simp [magSq]
  | cons a l ih =>
    rw [List.map_cons, List.sum_cons, ih, magSq_cons, div_pow]
    push_cast
    ring

/-- The distribution fold never changes the vector length. -/
theorem distribFold_length (l : List ℕ) (e : List ℚ) (b : ℕ) (v : ℚ) :
    (l.foldl (fun e i => if b + i < e.length then addAt e (b + i) v else e) e).length
      = e.length := by
  induction l generalizing e with
  | nil => rfl
  | cons i l ih =>
    rw [List.foldl_cons, ih]
    by_cases h : b + i < e.length <;> simp [h, addAt]

/-- `distribute` preserves the vector length. -/
theorem distribute_length (e : List ℚ) (b : ℕ) (v : ℚ) :
    (distribute e b v).length = e.length :=
  distribFold_length _ _ _ _

/-- `processWord` preserves the vector length. -/
theorem processWord_length (e : List ℚ) (idx : ℕ) (w : String) :
    (processWord e idx w).length = e.length := by
  unfold processWord
  exact distribute_length _ _ _

/-- The word fold preserves the vector length. -/
theorem foldWords_length (ps : List (ℕ × String)) (e : List ℚ) :
    (ps.foldl (fun e p => processWord e p.1 p.2) e).length = e.length := by
  induction ps generalizing e with
  | nil => rfl
  | cons p ps ih => rw [List.foldl_cons, ih, processWord_length]

/-- The raw fallback vector has exactly 384 components. -/
theorem fallbackRaw_length (t : String) : (fallbackRaw t).length = 384 := by
  unfold fallbackRaw
  rw [foldWords_length]
  simp

/-- C3: for every input text the fallback embedding has exactly 384
components and unit sum of squares, except when the pre-normalization
vector is zero (e.g. empty input), where the Euclidean norm used as the
divisor is itself 0 and every division is the non-finite case 0/0. -/
theorem fallback_normalized (t : String) :
    (fallbackEmbedding t).length = 384
  ∧ (magSq (fallbackRaw t) ≠ 0 →
      ((fallbackEmbedding t).map (fun v => v ^ 2)).sum = 1)
  ∧ (magSq (fallbackRaw t) = 0 →
      Real.sqrt ((magSq (fallbackRaw t) : ℚ) : ℝ) = 0
      ∧ ∀ v ∈ fallbackRaw t, v = 0) := by
  refine ⟨?_, ?_, ?_⟩
  · unfold fallbackEmbedding
    rw [List.length_map, fallbackRaw_length]
  · intro h
    have hpos : (0 : ℚ) < magSq (fallbackRaw t) :=
      lt_of_le_of_ne (magSq_nonneg _) (Ne.symm h)
    have hposR : (0 : ℝ) < ((magSq (fallbackRaw t) : ℚ) : ℝ) := by
      exact_mod_cast hpos
    have hmap : (fallbackEmbedding t).map (fun v => v ^ 2)
        = (fallbackRaw t).map
            (fun v => (((v : ℚ) : ℝ) / Real.sqrt ((magSq (fallbackRaw t) : ℚ) : ℝ)) ^ 2) := by
      unfold fallbackEmbedding
      rw [List.map_map]
      rfl
    rw [hmap, sum_sq_div, Real.sq_sqrt hposR.le]
    exact div_self (ne_of_gt hposR)
  · intro h
    refine ⟨?_, eq_zero_of_magSq_eq_zero _ h⟩
    rw [h]
    simp

/-! Pointwise characterization of the distribution folds. -/

/-- Reading a functional list update at any index. -/
theorem getD_set (l : List ℚ) (k j : ℕ) (x : ℚ) :
    (l.set k x).getD j 0 = if k = j ∧ j < l.length then x else l.getD j 0 := by
  induction l generalizing k j with
  | nil => simp
  | cons a l ih =>
    cases k with
    | zero =>
      cases j with
      | zero => simp
      | succ j => simp
    | succ k =>
      cases j with
      | zero => simp
      | succ j =>
        simp only [List.set, List.getD_cons_succ, ih k j, List.length_cons]
        by_cases h : k = j ∧ j < l.length
        · rw [if_pos h, if_pos (by omega)]
        · rw [if_neg h, if_neg (by omega)]

/-- Reading the in-place increment at any index. -/
theorem addAt_getD (e : List ℚ) (k j : ℕ) (v : ℚ) :
    (addAt e k v).getD j 0
      = if k = j ∧ j < e.length then e.getD j 0 + v else e.getD j 0 := by
  unfold addAt
  rw [getD_set]
  by_cases h : k = j ∧ j < e.length
  · obtain ⟨h1, h2⟩ := h
    subst h1
    simp [h2]
  · rw [if_neg h, if_neg h]

/-- Reading the distribution fold: index `j` is incremented exactly when
it lies in the window `[b, b + n)` and inside the vector. -/
theorem distribFold_getD (n : ℕ) (e : List ℚ) (b : ℕ) (v : ℚ) (j : ℕ) :
    ((List.range n).foldl
        (fun e i => if b + i < e.length then addAt e (b + i) v else e) e).getD j 0
      = e.getD j 0 + if b ≤ j ∧ j < b + n ∧ j < e.length then v else 0 := by
  induction n with
  | zero =>
    simp only [List.range_zero, List.foldl_nil]
    rw [if_neg (by omega)]
    simp
  | succ n ih =>
    rw [List.range_succ, List.foldl_append, List.foldl_cons, List.foldl_nil]
    set A := (List.range n).foldl
      (fun e i => if b + i < e.length then addAt e (b + i) v else e) e with hA
    have hlen : A.length = e.length := distribFold_length _ _ _ _
    by_cases hcond : b + n < A.length
    · rw [if_pos hcond, addAt_getD, hlen, ih]
      rw [hlen] at hcond
      by_cases hj : b + n = j ∧ j < e.length
      · rw [if_pos hj]
        obtain ⟨hj1, hj2⟩ := hj
        rw [if_neg (by omega), if_pos (by omega)]
        ring
      · rw [if_neg hj]
        by_cases hold : b ≤ j ∧ j < b + n ∧ j < e.length
        · rw [if_pos hold, if_pos (by omega)]
        · rw [if_neg hold, if_neg (by omega)]
    · rw [if_neg hcond, ih]
      rw [hlen] at hcond
      by_cases hold : b ≤ j ∧ j < b + n ∧ j < e.length
      · rw [if_pos hold, if_pos (by omega)]
      · rw [if_neg hold, if_neg (by omega)]

/-- Reading `distribute` at any index: the ten-slot window. -/
theorem distribute_getD (e : List ℚ) (b : ℕ) (v : ℚ) (j : ℕ) :
    (distribute e b v).getD j 0
      = e.getD j 0 + if b ≤ j ∧ j < b + 10 ∧ j < e.length then v else 0 := by
  unfold distribute
  exact distribFold_getD 10 e b v j

/-- Reading `processWord` at any index of a 384-long vector. -/
theorem processWord_getD (e : List ℚ) (idx : ℕ) (w : String) (j : ℕ)
    (he : e.length = 384) :
    (processWord e idx w).getD j 0
      = e.getD j 0 +
        if ((wordHash w).natAbs + idx) % 384 ≤ j
           ∧ j < ((wordHash w).natAbs + idx) % 384 + 10 ∧ j < 384
        then (jsRem (wordHash w) 100 : ℚ) / 100 else 0 := by
  unfold processWord
  rw [distribute_getD, he]

/-- Reading the word fold at any index of a 384-long vector: each indexed
word contributes on its own window. -/
theorem foldWords_getD (ps : List (ℕ × String)) (e : List ℚ) (j : ℕ)
    (he : e.length = 384) :
    ((ps.foldl (fun e p => processWord e p.1 p.2) e)).getD j 0
      = e.getD j 0 +
        (ps.map (fun p =>
          if ((wordHash p.2).natAbs + p.1) % 384 ≤ j
             ∧ j < ((wordHash p.2).natAbs + p.1) % 384 + 10 ∧ j < 384
          then (jsRem (wordHash p.2) 100 : ℚ) / 100 else 0)).sum := by
  induction ps generalizing e with
  | nil => simp
  | cons p ps ih =>
    rw [List.foldl_cons, ih _ (by rw [processWord_length, he]),
      processWord_getD _ _ _ _ he, List.map_cons, List.sum_cons]
    ring

/-- Reading any index of a zero-filled vector gives zero. -/
theorem getD_replicate_zero (n j : ℕ) :
    (List.replicate n (0 : ℚ)).getD j 0 = 0 := by
  induction n generalizing j with
  | zero => simp
  | succ n ih =>
    cases j with
    | zero => simp [List.replicate_succ]
    | succ j => simp [List.replicate_succ, ih]

/-- Every component of the raw fallback vector is the sum of the
contributions of the indexed words whose window covers it. -/
theorem fallbackRaw_getD (t : String) (j : ℕ) :
    (fallbackRaw t).getD j 0
      = ((jsSplitWS (jsToLower t)).enum.map (fun p =>
          if ((wordHash p.2).natAbs + p.1) % 384 ≤ j
             ∧ j < ((wordHash p.2).natAbs + p.1) % 384 + 10 ∧ j < 384
          then (jsRem (wordHash p.2) 100 : ℚ) / 100 else 0)).sum := by
  unfold fallbackRaw
  rw [foldWords_getD _ _ _ (by simp), getD_replicate_zero, zero_add]

/-- A vector with a nonzero component has nonzero sum of squares. -/
theorem magSq_ne_zero_of_getD (l : List ℚ) (j : ℕ) (hj : j < l.length)
    (h : l.getD j 0 ≠ 0) : magSq l ≠ 0 := by
  intro hz
  apply h
  rw [List.getD_eq_getElem l 0 hj]
  exact eq_zero_of_magSq_eq_zero l hz _ (List.getElem_mem hj)

/-- The zero vector has zero sum of squares. -/
theorem magSq_eq_zero_of_forall (l : List ℚ) (h : ∀ v ∈ l, v = 0) :
    magSq l = 0 := by
  induction l with
  | nil => simp [magSq]
  | cons a l ih =>
    rw [magSq_cons, h a (by simp), ih (fun v hv => h v (by simp [hv]))]
    ring

/-- The empty query produces the zero raw vector. -/
theorem fallbackRaw_empty_zero : ∀ v ∈ fallbackRaw "", v = 0 := by
  intro v hv
  obtain ⟨i, hi, rfl⟩ := List.mem_iff_getElem.mp hv
  rw [← List.getD_eq_getElem _ 0 hi, fallbackRaw_getD]
  have hsplit : jsSplitWS (jsToLower "") = [""] := rfl
  rw [hsplit]
  have hw : wordHash "" = 0 := rfl
  simp [hw, jsRem, ite_self]

/-- Witness for C3: the one-word query `hola` yields a unit vector; the
empty query yields the zero raw vector with zero norm. -/
theorem fallback_normalized_witness :
    ((fallbackEmbedding "hola").map (fun v => v ^ 2)).sum = 1
  ∧ (Real.sqrt ((magSq (fallbackRaw "") : ℚ) : ℝ) = 0
      ∧ ∀ v ∈ fallbackRaw "", v = 0) := by
  constructor
  · apply (fallback_normalized "hola").2.1
    apply magSq_ne_zero_of_getD _ (((wordHash "hola").natAbs + 0) % 384)
    · rw [fallbackRaw_length]
      exact Nat.mod_lt _ (by norm_num)
    · rw [fallbackRaw_getD]
      have hsplit : jsSplitWS (jsToLower "hola") = ["hola"] := rfl
      rw [hsplit]
      have henum : ([("hola" : String)]).enum = [(0, ("hola" : String))] := rfl
      rw [henum, List.map_cons, List.map_nil, List.sum_cons, List.sum_nil]
      dsimp only
      rw [if_pos ⟨le_refl _, by omega, Nat.mod_lt _ (by norm_num)⟩]
      rw [add_zero]
      apply div_ne_zero
      · exact Int.cast_ne_zero.mpr (by decide)
      · norm_num
  · apply (fallback_normalized "").2.2
    exact magSq_eq_zero_of_forall _ fallbackRaw_empty_zero

/-- C5: the per-word distribution law of the fallback embedding: the
32-bit two's-complement truncation `toInt32` satisfies the wraparound
characterization, the rolling hash follows
`hash = ((hash << 5) - hash) + charCode` truncated at every step from 0,
and component `j` of the raw vector is the sum, over the indexed words of
the lowercased whitespace-split input, of `(hash % 100) / 100` for each
word whose ten-slot window starting at `(abs(hash) + i) % 384` covers `j`
without crossing the vector boundary. -/
theorem fallback_hash_distribution (t : String) (j : ℕ) :
    (∀ n : ℤ, toInt32 n % 4294967296 = n % 4294967296
       ∧ -2147483648 ≤ toInt32 n ∧ toInt32 n < 2147483648)
  ∧ (∀ (w : String) (c : Char),
       wordHash (w.push c)
         = toInt32 (toInt32 (wordHash w * 32) - wordHash w + c.toNat))
  ∧ wordHash "" = 0
  ∧ (fallbackRaw t).getD j 0
      = ((jsSplitWS (jsToLower t)).enum.map (fun p =>
          if ((wordHash p.2).natAbs + p.1) % 384 ≤ j
             ∧ j < ((wordHash p.2).natAbs + p.1) % 384 + 10 ∧ j < 384
          then (jsRem (wordHash p.2) 100 : ℚ) / 100 else 0)).sum := by
  refine ⟨?_, ?_, rfl, fallbackRaw_getD t j⟩
  · intro n
    unfold toInt32
    refine ⟨by omega, by omega, by omega⟩
  · intro w c
    unfold wordHash
    have hd : (w.push c).data = w.data ++ [c] := by
      cases w
      rfl
    rw [hd, List.foldl_append, List.foldl_cons, List.foldl_nil]
    rfl

end WayuuLingo
